import Mathlib

/-!
Verification of the `ndimpoint` crate: a generic N-dimensional point type
`Point<T>` wrapping a `Vec<T>`, with elementwise operators (add/sub/mul,
implemented with `iter().zip(...)`, hence truncating to the shorter operand),
scalar operators (add/sub/mul/div, in both a borrowed `&Point<T>` form and a
consuming `Point<T>` form), a dimension query, a Euclidean norm `dist`
(promoting coordinates to `f64`, modelled here by `ℝ`), and a caller-supplied
reduction `apply`.

The embedding below mirrors `src/lib.rs`: `Vec<T>` becomes `List T`,
`iter().zip(..).map(..).collect()` becomes `List.zipWith`,
`iter().map(..).collect()` becomes `List.map`, and `f64` becomes `ℝ` with the
`Into<f64>` conversion an explicit function `into : T → ℝ`.
-/

/-- Rust: `pub struct Point<T> { p: Vec<T> }` -/
structure Point (T : Type) where
  p : List T
deriving DecidableEq, Repr

namespace Point

variable {T : Type}

/-- Rust: `pub fn new(p: Vec<T>) -> Self { Point { p } }` -/
def new (p : List T) : Point T :=
  ⟨p⟩

/-- Rust: `pub fn dim(&self) -> usize { self.p.len() }` -/
def dim (pt : Point T) : Nat :=
  pt.p.length

/-- Rust: `pub fn dist(&self) -> f64 { self.p.iter().map(|&x| x.into().powi(2)).sum::<f64>().sqrt() }`
with `f64` modelled by `ℝ` and `Into<f64>` by `into`. -/
noncomputable def dist (into : T → ℝ) (pt : Point T) : ℝ :=
  Real.sqrt ((pt.p.map (fun x => into x ^ 2)).sum)

/-- Rust: `pub fn apply(&self, func: fn(&[T]) -> f64) -> f64 { func(&self.p) }` -/
def apply (pt : Point T) (func : List T → ℝ) : ℝ :=
  func pt.p

/-- Rust: `impl Add<&Point<T>> for &Point<T>`:
`self.p.iter().zip(other.p.iter()).map(|(&a, &b)| a + b).collect()` -/
def add [Add T] (a other : Point T) : Point T :=
  ⟨List.zipWith (fun x y => x + y) a.p other.p⟩

/-- Rust: `impl Sub<&Point<T>> for &Point<T>`:
`self.p.iter().zip(other.p.iter()).map(|(&a, &b)| a - b).collect()` -/
def sub [Sub T] (a other : Point T) : Point T :=
  ⟨List.zipWith (fun x y => x - y) a.p other.p⟩

/-- Rust: `impl Mul<&Point<T>> for &Point<T>`:
`self.p.iter().zip(other.p.iter()).map(|(&a, &b)| a * b).collect()` -/
def mul [Mul T] (a other : Point T) : Point T :=
  ⟨List.zipWith (fun x y => x * y) a.p other.p⟩

/-- Rust: `impl Add<T> for &Point<T>`: `self.p.iter().map(|&a| a + scalar).collect()` -/
def addScalar [Add T] (a : Point T) (scalar : T) : Point T :=
  ⟨a.p.map (fun x => x + scalar)⟩

/-- Rust: `impl Sub<T> for &Point<T>`: `self.p.iter().map(|&a| a - scalar).collect()` -/
def subScalar [Sub T] (a : Point T) (scalar : T) : Point T :=
  ⟨a.p.map (fun x => x - scalar)⟩

/-- Rust: `impl Mul<T> for &Point<T>`: `self.p.iter().map(|&a| a * scalar).collect()` -/
def mulScalar [Mul T] (a : Point T) (scalar : T) : Point T :=
  ⟨a.p.map (fun x => x * scalar)⟩

/-- Rust: `impl Div<T> for &Point<T>`: `self.p.iter().map(|&a| a / scalar).collect()` -/
def divScalar [Div T] (a : Point T) (scalar : T) : Point T :=
  ⟨a.p.map (fun x => x / scalar)⟩

/-- Rust: `impl Add<T> for Point<T>` (consuming form):
`self.p.iter().map(|&a| a + scalar).collect()` -/
def addScalarOwn [Add T] (a : Point T) (scalar : T) : Point T :=
  ⟨a.p.map (fun x => x + scalar)⟩

/-- Rust: `impl Sub<T> for Point<T>` (consuming form):
`self.p.iter().map(|&a| a - scalar).collect()` -/
def subScalarOwn [Sub T] (a : Point T) (scalar : T) : Point T :=
  ⟨a.p.map (fun x => x - scalar)⟩

/-- Rust: `impl Mul<T> for Point<T>` (consuming form):
`self.p.iter().map(|&a| a * scalar).collect()` -/
def mulScalarOwn [Mul T] (a : Point T) (scalar : T) : Point T :=
  ⟨a.p.map (fun x => x * scalar)⟩

/-- Rust: `impl Div<T> for Point<T>` (consuming form):
`self.p.iter().map(|&a| a / scalar).collect()` -/
def divScalarOwn [Div T] (a : Point T) (scalar : T) : Point T :=
  ⟨a.p.map (fun x => x / scalar)⟩

end Point

section Helpers

variable {α β γ : Type}

/-- `zipWith` at an index where both lists are defined yields the pairwise image. -/
theorem zipWith_getElem?_of_some (f : α → β → γ) (l1 : List α) (l2 : List β)
    (i : Nat) (x : α) (y : β) (hx : l1[i]? = some x) (hy : l2[i]? = some y) :
    (List.zipWith f l1 l2)[i]? = some (f x y) := by
  induction l1 generalizing l2 i with
  | nil => simp at hx
  | cons a as ih =>
    cases l2 with
    | nil => simp at hy
    | cons b bs =>
      cases i with
      | zero => simp_all
      | succ n => simpa using ih bs n (by simpa using hx) (by simpa using hy)

/-- `map` commutes with optional indexing. -/
theorem map_getElem? (g : α → β) (l : List α) (i : Nat) :
    (l.map g)[i]? = Option.map g l[i]? := by
  simp

end Helpers

/-- C1: for points `a`, `b` over the same scalar type with equal dimensionality,
the elementwise operators add, subtract and multiply return a point whose
coordinate at every in-range index `i` is the corresponding scalar operation
applied to `a`'s and `b`'s coordinates at `i`. -/
theorem elementwise_pointwise {T : Type} [Add T] [Sub T] [Mul T]
    (a b : Point T) (hdim : a.dim = b.dim) (i : Nat) (x y : T)
    (hx : a.p[i]? = some x) (hy : b.p[i]? = some y) :
    (a.add b).dim = a.dim ∧
    (a.add b).p[i]? = some (x + y) ∧
    (a.sub b).p[i]? = some (x - y) ∧
    (a.mul b).p[i]? = some (x * y) :=
  ⟨by simp only [Point.add, Point.dim] at hdim ⊢; simp [List.length_zipWith, hdim],
   zipWith_getElem?_of_some _ _ _ _ _ _ hx hy,
   zipWith_getElem?_of_some _ _ _ _ _ _ hx hy,
   zipWith_getElem?_of_some _ _ _ _ _ _ hx hy⟩

/-- C1 witness: `[1,2,3] + [4,5,6]` over `ℤ` has coordinate `7` at index `1`,
and similarly for subtraction and multiplication. -/
theorem elementwise_pointwise_witness :
    ((Point.new [(1 : ℤ), 2, 3]).add (Point.new [4, 5, 6])).p[1]? = some 7 ∧
    ((Point.new [(1 : ℤ), 2, 3]).sub (Point.new [4, 5, 6])).p[1]? = some (-3) ∧
    ((Point.new [(1 : ℤ), 2, 3]).mul (Point.new [4, 5, 6])).p[1]? = some 10 := by
  have h := elementwise_pointwise (Point.new [(1 : ℤ), 2, 3]) (Point.new [4, 5, 6])
    rfl 1 2 5 (by decide) (by decide)
  refine ⟨h.2.1.trans ?_, h.2.2.1.trans ?_, h.2.2.2.trans ?_⟩ <;> norm_num

/-- C2: for any two points, also of mismatched dimensionality, each elementwise
operator pairs coordinates positionally up to the shorter operand's length,
silently discarding the unmatched trailing coordinates of the longer operand,
and the result's dimensionality is the minimum of the operands' dimensionalities. -/
theorem elementwise_truncates {T : Type} [Add T] [Sub T] [Mul T] (a b : Point T) :
    ((a.add b).dim = min a.dim b.dim ∧
     (a.sub b).dim = min a.dim b.dim ∧
     (a.mul b).dim = min a.dim b.dim) ∧
    ∀ (i : Nat) (x y : T), a.p[i]? = some x → b.p[i]? = some y →
      (a.add b).p[i]? = some (x + y) ∧
      (a.sub b).p[i]? = some (x - y) ∧
      (a.mul b).p[i]? = some (x * y) := by
  refine ⟨⟨?_, ?_, ?_⟩, ?_⟩
  · simp [Point.add, Point.dim]
  · simp [Point.sub, Point.dim]
  · simp [Point.mul, Point.dim]
  · intro i x y hx hy
    exact ⟨zipWith_getElem?_of_some _ _ _ _ _ _ hx hy,
           zipWith_getElem?_of_some _ _ _ _ _ _ hx hy,
           zipWith_getElem?_of_some _ _ _ _ _ _ hx hy⟩

/-- C2 witness: adding `[1,2,3]` and `[10,20]` over `ℤ` yields a point of
dimensionality `2` whose coordinate at index `1` is `2 + 20 = 22`; the trailing
coordinate `3` of the longer operand is discarded. -/
theorem elementwise_truncates_witness :
    ((Point.new [(1 : ℤ), 2, 3]).add (Point.new [10, 20])).dim = 2 ∧
    ((Point.new [(1 : ℤ), 2, 3]).add (Point.new [10, 20])).p[1]? = some 22 ∧
    ((Point.new [(1 : ℤ), 2, 3]).add (Point.new [10, 20])).p[2]? = none := by
  have h := elementwise_truncates (Point.new [(1 : ℤ), 2, 3]) (Point.new [10, 20])
  refine ⟨by simpa using h.1.1, ?_, by decide⟩
  have h1 := (h.2 1 2 20 (by decide) (by decide)).1
  simpa using h1

/-- C3: each scalar operator maps every coordinate through the corresponding
scalar operation with the given scalar and preserves dimensionality, which
equals the length of the constructing sequence. -/
theorem scalar_pointwise {T : Type} [Add T] [Sub T] [Mul T] [Div T]
    (l : List T) (a : Point T) (s : T) :
    (Point.new l).dim = l.length ∧
    ((a.addScalar s).dim = a.dim ∧ (a.subScalar s).dim = a.dim ∧
     (a.mulScalar s).dim = a.dim ∧ (a.divScalar s).dim = a.dim) ∧
    ∀ i : Nat,
      (a.addScalar s).p[i]? = Option.map (fun x => x + s) a.p[i]? ∧
      (a.subScalar s).p[i]? = Option.map (fun x => x - s) a.p[i]? ∧
      (a.mulScalar s).p[i]? = Option.map (fun x => x * s) a.p[i]? ∧
      (a.divScalar s).p[i]? = Option.map (fun x => x / s) a.p[i]? := by
  refine ⟨rfl, ⟨by simp [Point.addScalar, Point.dim], by simp [Point.subScalar, Point.dim],
    by simp [Point.mulScalar, Point.dim], by simp [Point.divScalar, Point.dim]⟩,
    fun i => ⟨?_, ?_, ?_, ?_⟩⟩
  · exact map_getElem? _ a.p i
  · exact map_getElem? _ a.p i
  · exact map_getElem? _ a.p i
  · exact map_getElem? _ a.p i

/-- C4: `dist` is the Euclidean norm: the square root of the sum of the squared
coordinates after conversion to the (real-modelled) `f64` type; it is `0` on a
zero-length point and `sqrt 14` on the point `[1,2,3]`. -/
theorem dist_euclidean :
    (∀ (T : Type) (into : T → ℝ), Point.dist into (Point.new ([] : List T)) = 0) ∧
    (∀ (T : Type) (into : T → ℝ) (pt : Point T),
      Point.dist into pt = Real.sqrt (∑ i : Fin pt.dim, into (pt.p.get ⟨i.1, i.2⟩) ^ 2)) ∧
    Point.dist (fun n : ℤ => (n : ℝ)) (Point.new [1, 2, 3]) = Real.sqrt 14 := by
  refine ⟨?_, ?_, ?_⟩
  · intro T into
    simp [Point.dist, Point.new]
  · intro T into pt
    have h : (pt.p.map (fun x => into x ^ 2)).sum
        = ∑ i : Fin pt.p.length, into (pt.p.get i) ^ 2 := by
      rw [← Fin.sum_univ_get']
      simp [List.get_eq_getElem]
    simp only [Point.dist, Point.dim]
    rw [h]
  · norm_num [Point.dist, Point.new]

/-- C5: multiplying a point by a scalar `s ≠ 0` and then dividing by `s`
returns the original point, exactly for the exact-arithmetic integer type `ℤ`
(where `s` always divides each product evenly) and for the idealized
floating-point type modelled by `ℝ`; in particular `[10,20,30] / 10 = [1,2,3]`. -/
theorem scalar_roundtrip :
    (∀ (a : Point ℤ) (s : ℤ), s ≠ 0 → (a.mulScalar s).divScalar s = a) ∧
    (∀ (a : Point ℝ) (s : ℝ), s ≠ 0 → (a.mulScalar s).divScalar s = a) ∧
    (Point.new [(10 : ℤ), 20, 30]).divScalar 10 = Point.new [1, 2, 3] := by
  refine ⟨?_, ?_, by decide⟩
  · intro a s hs
    obtain ⟨ap⟩ := a
    simp only [Point.mulScalar, Point.divScalar, List.map_map, Point.mk.injEq]
    calc ap.map ((fun x => x / s) ∘ fun x => x * s)
        = ap.map id := List.map_congr_left fun x _ => Int.mul_ediv_cancel x hs
      _ = ap := List.map_id ap
  · intro a s hs
    obtain ⟨ap⟩ := a
    simp only [Point.mulScalar, Point.divScalar, List.map_map, Point.mk.injEq]
    calc ap.map ((fun x => x / s) ∘ fun x => x * s)
        = ap.map id := List.map_congr_left fun x _ => mul_div_cancel_right₀ x hs
      _ = ap := List.map_id ap

/-- C5 witness: the round trip at concrete inputs: `([1,2,3] * 10) / 10 = [1,2,3]`
over `ℤ` and `([1.5] * 2) / 2 = [1.5]` over the real model of `f64`. -/
theorem scalar_roundtrip_witness :
    ((Point.new [(1 : ℤ), 2, 3]).mulScalar 10).divScalar 10 = Point.new [1, 2, 3] ∧
    ((Point.new [(1.5 : ℝ)]).mulScalar 2).divScalar 2 = Point.new [1.5] :=
  ⟨scalar_roundtrip.1 (Point.new [1, 2, 3]) 10 (by decide),
   scalar_roundtrip.2.1 (Point.new [1.5]) 2 (by norm_num)⟩

/-- C6: apart from the dimension-mismatch truncation of the elementwise
operators, every operation is a total function: the elementwise and scalar
operators (scalar division included, for every divisor `s`, zero included)
yield a point of the expected dimensionality for all inputs, `dist` is
characterized on every point by a nonnegative sum of squares, and `apply`
returns a value for every point and reduction; division is delegated to the
ambient division of `T` at every coordinate, with no special case for `s = 0`. -/
theorem ops_total {T : Type} [Add T] [Sub T] [Mul T] [Div T]
    (a b : Point T) (s : T) (into : T → ℝ) (f : List T → ℝ) :
    ((a.add b).dim = min a.dim b.dim ∧
     (a.addScalar s).dim = a.dim ∧ (a.subScalar s).dim = a.dim ∧
     (a.mulScalar s).dim = a.dim ∧ (a.divScalar s).dim = a.dim) ∧
    (∀ i : Nat, (a.divScalar s).p[i]? = Option.map (fun x => x / s) a.p[i]?) ∧
    Point.dist into a ^ 2 = (a.p.map fun x => into x ^ 2).sum ∧
    0 ≤ (a.p.map fun x => into x ^ 2).sum ∧
    a.apply f = f a.p := by
  have hnn : 0 ≤ (a.p.map fun x => into x ^ 2).sum := by
    refine List.sum_nonneg ?_
    intro x hx
    obtain ⟨y, _, rfl⟩ := List.mem_map.mp hx
    positivity
  refine ⟨⟨by simp [Point.add, Point.dim], by simp [Point.addScalar, Point.dim],
    by simp [Point.subScalar, Point.dim], by simp [Point.mulScalar, Point.dim],
    by simp [Point.divScalar, Point.dim]⟩,
    fun i => map_getElem? _ a.p i, ?_, hnn, rfl⟩
  simp [Point.dist, Real.sq_sqrt hnn]

/-- C7: the consuming (by-value) form of every scalar operator returns exactly
the same point as the non-consuming (by-reference) form on the same inputs. -/
theorem own_matches_borrowed {T : Type} [Add T] [Sub T] [Mul T] [Div T]
    (a : Point T) (s : T) :
    a.addScalarOwn s = a.addScalar s ∧
    a.subScalarOwn s = a.subScalar s ∧
    a.mulScalarOwn s = a.mulScalar s ∧
    a.divScalarOwn s = a.divScalar s :=
  ⟨rfl, rfl, rfl, rfl⟩

/-- C9: `apply` invokes the supplied function on the coordinate sequence and
returns its result verbatim; in particular, summing the coordinates of
`[1,2,3]` cast to the (real-modelled) `f64` type gives `6`. -/
theorem apply_verbatim {T : Type} (pt : Point T) (f : List T → ℝ) :
    pt.apply f = f pt.p ∧
    (Point.new [(1 : ℤ), 2, 3]).apply (fun xs => (xs.map fun n => (n : ℝ)).sum) = 6 :=
  ⟨rfl, by norm_num [Point.apply, Point.new]⟩

/-- C10: `dist` is nonnegative on every point: it is the square root of a sum
of squares. -/
theorem dist_nonneg_always {T : Type} (into : T → ℝ) (pt : Point T) :
    0 ≤ Point.dist into pt :=
  Real.sqrt_nonneg _
